import Mathlib

/-!
Verification of the memoizing call cache, call counter, singleton wrapper and
Fibonacci examples from the Decorators notebook.

The embedding models Python values with an inductive type, caches with
insertion-ordered association lists (matching dict semantics), and the
decorator wrappers as explicit state-passing functions.  A call that raises
is modelled with Except.
-/

/-- A Python value, as far as the cache examples need: integers, strings,
booleans, None, tuples represented as nested pairs, and lists (the one
unhashable kind that appears). -/
inductive PyVal : Type where
  | int : Int → PyVal
  | str : String → PyVal
  | bool : Bool → PyVal
  | none_ : PyVal
  | pair : PyVal → PyVal → PyVal
  | list : List PyVal → PyVal

mutual

/-- Structural equality test for Python values. -/
def PyVal.beq : PyVal → PyVal → Bool
  | PyVal.int a, PyVal.int b => a == b
  | PyVal.str a, PyVal.str b => a == b
  | PyVal.bool a, PyVal.bool b => a == b
  | PyVal.none_, PyVal.none_ => true
  | PyVal.pair a b, PyVal.pair c d => PyVal.beq a c && PyVal.beq b d
  | PyVal.list a, PyVal.list b => PyVal.beqList a b
  | _, _ => false

/-- Structural equality test for lists of Python values. -/
def PyVal.beqList : List PyVal → List PyVal → Bool
  | [], [] => true
  | a :: as, b :: bs => PyVal.beq a b && PyVal.beqList as bs
  | _, _ => false

end

mutual

theorem PyVal.eq_of_beq : ∀ {a b : PyVal}, PyVal.beq a b = true → a = b
  | PyVal.int _, PyVal.int _, h => by
      simp only [PyVal.beq, beq_iff_eq] at h; rw [h]
  | PyVal.str _, PyVal.str _, h => by
      simp only [PyVal.beq, beq_iff_eq] at h; rw [h]
  | PyVal.bool _, PyVal.bool _, h => by
      simp only [PyVal.beq, beq_iff_eq] at h; rw [h]
  | PyVal.none_, PyVal.none_, _ => rfl
  | PyVal.pair a b, PyVal.pair c d, h => by
      simp only [PyVal.beq, Bool.and_eq_true] at h
      rw [PyVal.eq_of_beq h.1, PyVal.eq_of_beq h.2]
  | PyVal.list a, PyVal.list b, h => by
      rw [PyVal.eq_of_beqList (a := a) (b := b) h]

theorem PyVal.eq_of_beqList : ∀ {a b : List PyVal}, PyVal.beqList a b = true → a = b
  | [], [], _ => rfl
  | x :: xs, y :: ys, h => by
      simp only [PyVal.beqList, Bool.and_eq_true] at h
      rw [PyVal.eq_of_beq h.1, PyVal.eq_of_beqList (a := xs) (b := ys) h.2]

end

mutual

theorem PyVal.beq_refl : ∀ (a : PyVal), PyVal.beq a a = true
  | PyVal.int _ => by simp [PyVal.beq]
  | PyVal.str _ => by simp [PyVal.beq]
  | PyVal.bool _ => by simp [PyVal.beq]
  | PyVal.none_ => rfl
  | PyVal.pair a b => by
      simp only [PyVal.beq, Bool.and_eq_true]
      exact ⟨PyVal.beq_refl a, PyVal.beq_refl b⟩
  | PyVal.list a => PyVal.beqList_refl a

theorem PyVal.beqList_refl : ∀ (a : List PyVal), PyVal.beqList a a = true
  | [] => rfl
  | x :: xs => by
      simp only [PyVal.beqList, Bool.and_eq_true]
      exact ⟨PyVal.beq_refl x, PyVal.beqList_refl xs⟩

end

instance : DecidableEq PyVal := fun a b =>
  decidable_of_iff (PyVal.beq a b = true)
    ⟨PyVal.eq_of_beq, fun h => h ▸ PyVal.beq_refl a⟩

/-- Errors a wrapper call can surface: the TypeError raised when hashing an
unhashable cache key, or an error raised by the wrapped function itself. -/
inductive PyErr : Type where
  | unhashable : PyErr
  | raised : String → PyErr
deriving DecidableEq

instance {ε : Type} {α : Type} [DecidableEq ε] [DecidableEq α] : DecidableEq (Except ε α) :=
  fun a b =>
    match a, b with
    | Except.ok x, Except.ok y =>
        if h : x = y then isTrue (by rw [h]) else isFalse (fun hc => h (Except.ok.inj hc))
    | Except.error x, Except.error y =>
        if h : x = y then isTrue (by rw [h]) else isFalse (fun hc => h (Except.error.inj hc))
    | Except.ok _, Except.error _ => isFalse (fun hc => Except.noConfusion hc)
    | Except.error _, Except.ok _ => isFalse (fun hc => Except.noConfusion hc)

/-- Python hashability: ints, strings, booleans and None are hashable, a tuple
is hashable iff its components are, a list is never hashable. -/
def pyHashable : PyVal → Bool
  | PyVal.int _ => true
  | PyVal.str _ => true
  | PyVal.bool _ => true
  | PyVal.none_ => true
  | PyVal.pair a b => pyHashable a && pyHashable b
  | PyVal.list _ => false

/-- Python truthiness: None and False are falsy, a number is falsy iff zero,
a string or list is falsy iff empty, a two-element tuple is truthy. -/
def pyTruthy : PyVal → Bool
  | PyVal.int n => decide (n ≠ 0)
  | PyVal.str s => decide (s ≠ "")
  | PyVal.bool b => b
  | PyVal.none_ => false
  | PyVal.pair _ _ => true
  | PyVal.list l => !l.isEmpty

/-- Lookup in an insertion-ordered association list, the shallow model of
reading a Python dict. -/
def dictGet {κ : Type} {β : Type} [DecidableEq κ] (k : κ) : List (κ × β) → Option β
  | [] => none
  | (k0, v0) :: rest => if k0 = k then some v0 else dictGet k rest

/-- Assignment d[k] = v on an insertion-ordered association list: an existing
key keeps its position and gets the new value, a new key is appended. -/
def dictInsert {κ : Type} {β : Type} [DecidableEq κ] (k : κ) (v : β) : List (κ × β) → List (κ × β)
  | [] => [(k, v)]
  | (k0, v0) :: rest => if k0 = k then (k0, v) :: rest else (k0, v0) :: dictInsert k v rest

/-- The cache key of one call, from wrapper_cache in the notebook:
cache_key = args + tuple(kwargs.items()).  Positional values are followed by
the keyword items, each keyword item being the tuple (name, value), in the
call order of the keywords. -/
def cacheKey (args : List PyVal) (kwargs : List (String × PyVal)) : List PyVal :=
  args ++ kwargs.map (fun kv => PyVal.pair (PyVal.str kv.1) kv.2)

/-- A tuple used as a dict key is hashable iff each of its elements is. -/
def hashableKey (key : List PyVal) : Bool :=
  key.all pyHashable

/-- Result of one call to a cache wrapper: the value returned or error raised,
the cache dict after the call, and how many times the wrapped function was
invoked during the call (0 or 1). -/
structure CallResult (β : Type) : Type where
  result : Except PyErr β
  cache : List (List PyVal × β)
  invocations : Nat
deriving DecidableEq

/-- One call to wrapper_cache from the notebook, with the cache dict passed
explicitly.  The membership test hashes the key first (raising on an
unhashable argument before the wrapped function can run); a hit returns the
stored value without invoking the wrapped function; a miss invokes it and
stores the value, unless it raises, in which case the dict assignment never
happens and the error propagates. -/
def wrapper_cache {β : Type} (f : List PyVal → List (String × PyVal) → Except PyErr β)
    (cache : List (List PyVal × β)) (args : List PyVal) (kwargs : List (String × PyVal)) :
    CallResult β :=
  let key := cacheKey args kwargs
  if hashableKey key then
    match dictGet key cache with
    | some v => ⟨Except.ok v, cache, 0⟩
    | none =>
        match f args kwargs with
        | Except.ok v => ⟨Except.ok v, dictInsert key v cache, 1⟩
        | Except.error e => ⟨Except.error e, cache, 1⟩
  else
    ⟨Except.error PyErr.unhashable, cache, 0⟩

/-- One call of a program: positional arguments and keyword arguments. -/
def CacheCall : Type := List PyVal × List (String × PyVal)

/-- Run a sequence of calls through the cache wrapper, threading the cache
dict; this generates exactly the cache states reachable in a program that
keeps calling the wrapped function. -/
def runCalls {β : Type} (f : List PyVal → List (String × PyVal) → Except PyErr β) :
    List CacheCall → List (List PyVal × β) → List (List PyVal × β)
  | [], cache => cache
  | c :: rest, cache => runCalls f rest (wrapper_cache f cache c.1 c.2).cache

/-- A function whose result depends only on the constructed cache key. -/
def KeyRespecting {β : Type} (f : List PyVal → List (String × PyVal) → Except PyErr β) : Prop :=
  ∀ a1 kw1 a2 kw2, cacheKey a1 kw1 = cacheKey a2 kw2 → f a1 kw1 = f a2 kw2

/-- Every stored entry was produced by a successful call of f whose key is the
stored key. -/
def CacheConsistent {β : Type} (f : List PyVal → List (String × PyVal) → Except PyErr β)
    (cache : List (List PyVal × β)) : Prop :=
  ∀ k v, dictGet k cache = some v → ∃ a kw, cacheKey a kw = k ∧ f a kw = Except.ok v

/-- The naive recursive fibonacci of the notebook decorated with count_calls,
with the call counter passed explicitly: every invocation first increments
the counter, then runs the body, whose recursive calls go through the same
counting wrapper.  General recursion is expressed with explicit fuel; the
notebook only runs it at num = 10. -/
def fibNaive : Nat → Int → Nat → Option (Int × Nat)
  | 0, _, _ => none
  | fuel + 1, num, calls =>
      let calls := calls + 1
      if num < 2 then
        some (num, calls)
      else do
        let (a, c1) ← fibNaive fuel (num - 1) calls
        let (b, c2) ← fibNaive fuel (num - 2) c1
        some (a + b, c2)

/-- The fibonacci of the notebook decorated with cache over count_calls, with
the cache dict and the counter passed explicitly.  A call first consults the
cache under the key built from its single positional argument; on a miss the
counting wrapper increments the counter and runs the body, whose recursive
calls go through the same cached wrapper (left argument first, matching the
evaluation order of fibonacci(num - 1) + fibonacci(num - 2)), and the result
is stored after the body finishes.  Fuel makes the recursion structural. -/
def fibMemo : Nat → Int → List (List PyVal × Int) × Nat →
    Option (Int × (List (List PyVal × Int) × Nat))
  | 0, _, _ => none
  | fuel + 1, num, (cache, calls) =>
      let key := cacheKey [PyVal.int num] []
      match dictGet key cache with
      | some v => some (v, (cache, calls))
      | none =>
          let calls := calls + 1
          if num < 2 then
            some (num, (dictInsert key num cache, calls))
          else do
            let (a, st1) ← fibMemo fuel (num - 1) (cache, calls)
            let (b, st2) ← fibMemo fuel (num - 2) st1
            some (a + b, (dictInsert key (a + b) st2.1, st2.2))

/-- One call to wrapper_singleton from the notebook, with the stored instance
attribute passed explicitly (initially None).  The guard tests the truthiness
of the stored instance: a falsy stored value makes the wrapper construct a
fresh instance.  Returns the value returned to the caller, the instance
attribute after the call, and how many times the wrapped class was
constructed during the call. -/
def wrapper_singleton (cls : List PyVal → List (String × PyVal) → PyVal)
    (inst : PyVal) (args : List PyVal) (kwargs : List (String × PyVal)) :
    PyVal × PyVal × Nat :=
  if pyTruthy inst then
    (inst, inst, 0)
  else
    let fresh := cls args kwargs
    (fresh, fresh, 1)

/-- Remove the entry of a key from a recency list. -/
def lruRemove {κ : Type} {β : Type} [DecidableEq κ] (k : κ) : List (κ × β) → List (κ × β)
  | [] => []
  | (k0, v0) :: rest => if k0 = k then lruRemove k rest else (k0, v0) :: lruRemove k rest

/-- Modelled from the spec: the bounded LRU variant of the memoizer.  The
notebook only applies functools.lru_cache from the standard library, whose
implementation is not part of the repository, so the bounded variant is
modelled from the design section: entries are kept in recency order (least
recently used first); a hit returns the stored value and refreshes the
recency of its key; a miss computes the value, inserts it as most recent and,
if the number of entries now exceeds maxsize, evicts the least recently used
entry.  Returns the value, the new state and how many times the underlying
function was invoked during the call. -/
def lru_invoke {κ : Type} {β : Type} [DecidableEq κ] (f : κ → β) (maxsize : Nat)
    (st : List (κ × β)) (k : κ) : β × List (κ × β) × Nat :=
  match dictGet k st with
  | some v => (v, lruRemove k st ++ [(k, v)], 0)
  | none =>
      let v := f k
      let st1 := st ++ [(k, v)]
      (v, if maxsize < st1.length then st1.drop 1 else st1, 1)

/-- The state of the bounded memoizer after calling with keys A, B and C in
order, starting from an empty cache with maxsize 2. -/
def lruABC (f : Int → Int) (A B C : Int) : List (Int × Int) :=
  (lru_invoke f 2 (lru_invoke f 2 (lru_invoke f 2 [] A).2.1 B).2.1 C).2.1

/-! Helper lemmas about the dict model and the key construction. -/

theorem dictGet_dictInsert {κ : Type} {β : Type} [DecidableEq κ] (k key : κ) (v : β)
    (c : List (κ × β)) :
    dictGet k (dictInsert key v c) = if key = k then some v else dictGet k c := by
  induction c with
  | nil => simp [dictInsert, dictGet]
  | cons hd tl ih =>
      obtain ⟨k0, v0⟩ := hd
      by_cases h0 : k0 = key
      · subst h0
        by_cases hk : k0 = k
        · subst hk
          simp [dictInsert, dictGet]
        · simp [dictInsert, dictGet, hk]
      · by_cases hk : k0 = k
        · subst hk
          have hne : key ≠ k0 := fun h => h0 h.symm
          simp [dictInsert, dictGet, h0, hne]
        · simp [dictInsert, dictGet, h0, hk, ih]

theorem cacheKey_args_inj (a1 a2 : List PyVal) (kw : List (String × PyVal)) :
    cacheKey a1 kw = cacheKey a2 kw ↔ a1 = a2 := by
  constructor
  · intro h
    exact List.append_cancel_right h
  · intro h
    rw [h]

theorem kwItem_injective :
    Function.Injective (fun kv : String × PyVal => PyVal.pair (PyVal.str kv.1) kv.2) := by
  intro kv1 kv2 h
  obtain ⟨x1, y1⟩ := kv1
  obtain ⟨x2, y2⟩ := kv2
  simp only [PyVal.pair.injEq, PyVal.str.injEq] at h
  simp [h.1, h.2]

theorem cacheKey_kwargs_inj (a : List PyVal) (kw1 kw2 : List (String × PyVal)) :
    cacheKey a kw1 = cacheKey a kw2 ↔ kw1 = kw2 := by
  constructor
  · intro h
    have hm := List.append_cancel_left h
    exact List.map_injective_iff.mpr kwItem_injective hm
  · intro h
    rw [h]

theorem consistent_nil {β : Type} (f : List PyVal → List (String × PyVal) → Except PyErr β) :
    CacheConsistent f [] := by
  intro k v h
  simp [dictGet] at h

theorem consistent_step {β : Type} (f : List PyVal → List (String × PyVal) → Except PyErr β)
    (cache : List (List PyVal × β)) (a : List PyVal) (kw : List (String × PyVal))
    (h : CacheConsistent f cache) :
    CacheConsistent f (wrapper_cache f cache a kw).cache := by
  unfold wrapper_cache
  by_cases hh : hashableKey (cacheKey a kw)
  · simp only [hh, if_true]
    cases hget : dictGet (cacheKey a kw) cache with
    | some v => simpa [hget] using h
    | none =>
        cases hfv : f a kw with
        | ok v =>
            simp only [hget, hfv]
            intro k w hw
            rw [dictGet_dictInsert] at hw
            by_cases hk : cacheKey a kw = k
            · rw [if_pos hk] at hw
              exact ⟨a, kw, hk, by rw [hfv, Option.some.inj hw]⟩
            · rw [if_neg hk] at hw
              exact h k w hw
        | error e => simpa [hget, hfv] using h
  · simpa [hh] using h

theorem consistent_runCalls {β : Type} (f : List PyVal → List (String × PyVal) → Except PyErr β)
    (calls : List CacheCall) (cache : List (List PyVal × β)) (h : CacheConsistent f cache) :
    CacheConsistent f (runCalls f calls cache) := by
  induction calls generalizing cache with
  | nil => simpa [runCalls] using h
  | cons c rest ih =>
      exact ih _ (consistent_step f cache c.1 c.2 h)

/-! Concrete wrapped functions used in counterexamples and witnesses. -/

/-- A deterministic function that returns how many positional arguments the
call passed. -/
def argLen : List PyVal → List (String × PyVal) → Except PyErr Nat :=
  fun a _ => Except.ok a.length

/-- A deterministic function that returns how many keyword arguments the call
passed. -/
def kwLen : List PyVal → List (String × PyVal) → Except PyErr Nat :=
  fun _ kw => Except.ok kw.length

/-- A deterministic function whose result depends only on the cache key. -/
def keyLen : List PyVal → List (String × PyVal) → Except PyErr Nat :=
  fun a kw => Except.ok (cacheKey a kw).length

/-- A deterministic function that always returns 7. -/
def constSeven : List PyVal → List (String × PyVal) → Except PyErr Int :=
  fun _ _ => Except.ok 7

/-- A function that always raises. -/
def alwaysRaises : List PyVal → List (String × PyVal) → Except PyErr Int :=
  fun _ _ => Except.error (PyErr.raised "boom")

/-- Claim C1, counterexample: the wrapped function kwLen distinguishes two
calls whose cache keys collide (a trailing positional tuple against a keyword
item), so after the first call is cached, the wrapper answers the second call
with the first result, which differs from the value of kwLen on the second
call.  The memoized wrapper is therefore not extensionally equal to the
unwrapped function for every deterministic function. -/
theorem cache_transparency_cex :
    (wrapper_cache kwLen
        (wrapper_cache kwLen [] [PyVal.pair (PyVal.str "y") (PyVal.int 5)] []).cache
        [] [("y", PyVal.int 5)]).result ≠ kwLen [] [("y", PyVal.int 5)] := by
  decide

/-- Claim C1, amended: for a deterministic function whose result depends only
on the constructed cache key, every call with a hashable key, made from any
cache state reachable by earlier calls, returns exactly the value of the
unwrapped function on that call. -/
theorem cache_transparency {β : Type} (f : List PyVal → List (String × PyVal) → Except PyErr β)
    (hf : KeyRespecting f) (calls : List CacheCall) (a : List PyVal)
    (kw : List (String × PyVal)) (hh : hashableKey (cacheKey a kw) = true) :
    (wrapper_cache f (runCalls f calls []) a kw).result = f a kw := by
  have hcons : CacheConsistent f (runCalls f calls []) :=
    consistent_runCalls f calls [] (consistent_nil f)
  unfold wrapper_cache
  simp only [hh, if_true]
  cases hget : dictGet (cacheKey a kw) (runCalls f calls []) with
  | none => cases hfv : f a kw <;> simp [hfv]
  | some v =>
      obtain ⟨a2, kw2, hkey, hok⟩ := hcons _ _ hget
      have hsame : f a kw = f a2 kw2 := hf a kw a2 kw2 hkey.symm
      simp [hsame, hok]

/-- Claim C1, witness for the amended theorem at the key-respecting function
keyLen, one earlier call, and a concrete later call. -/
theorem cache_transparency_witness :
    (wrapper_cache keyLen
        (runCalls keyLen [(([PyVal.int 3], []) : CacheCall)] []) [PyVal.int 3] []).result =
      keyLen [PyVal.int 3] [] :=
  cache_transparency keyLen
    (fun a1 kw1 a2 kw2 h => by simp [keyLen, h])
    [(([PyVal.int 3], []) : CacheCall)] [PyVal.int 3] [] (by decide)

/-- Claim C2: if a call to the cache wrapper returns a value, then repeating
the call with the same arguments on the resulting cache returns the same
value, changes nothing, invokes the wrapped function zero times, and the two
calls together invoke the wrapped function at most once. -/
theorem cache_at_most_once {β : Type} (f : List PyVal → List (String × PyVal) → Except PyErr β)
    (cache : List (List PyVal × β)) (a : List PyVal) (kw : List (String × PyVal)) (v : β)
    (h : (wrapper_cache f cache a kw).result = Except.ok v) :
    wrapper_cache f (wrapper_cache f cache a kw).cache a kw =
      ⟨Except.ok v, (wrapper_cache f cache a kw).cache, 0⟩ ∧
    (wrapper_cache f cache a kw).invocations +
      (wrapper_cache f (wrapper_cache f cache a kw).cache a kw).invocations ≤ 1 := by
  by_cases hh : hashableKey (cacheKey a kw)
  · cases hget : dictGet (cacheKey a kw) cache with
    | some w =>
        have h1 : wrapper_cache f cache a kw = ⟨Except.ok w, cache, 0⟩ := by
          unfold wrapper_cache
          simp [hh, hget]
        have hv : w = v := by
          rw [h1] at h
          exact Except.ok.inj h
        subst hv
        rw [h1]
        constructor
        · unfold wrapper_cache
          simp [hh, hget]
        · unfold wrapper_cache
          simp [hh, hget]
    | none =>
        cases hfv : f a kw with
        | ok w =>
            have h1 : wrapper_cache f cache a kw =
                ⟨Except.ok w, dictInsert (cacheKey a kw) w cache, 1⟩ := by
              unfold wrapper_cache
              simp [hh, hget, hfv]
            have hv : w = v := by
              rw [h1] at h
              exact Except.ok.inj h
            subst hv
            rw [h1]
            have hget2 : dictGet (cacheKey a kw) (dictInsert (cacheKey a kw) w cache) =
                some w := by
              rw [dictGet_dictInsert]
              simp
            constructor
            · unfold wrapper_cache
              simp [hh, hget2]
            · unfold wrapper_cache
              simp [hh, hget2]
        | error e =>
            exfalso
            have h1 : wrapper_cache f cache a kw = ⟨Except.error e, cache, 1⟩ := by
              unfold wrapper_cache
              simp [hh, hget, hfv]
            rw [h1] at h
            exact Except.noConfusion h
  · exfalso
    have h1 : wrapper_cache f cache a kw = ⟨Except.error PyErr.unhashable, cache, 0⟩ := by
      unfold wrapper_cache
      simp [hh]
    rw [h1] at h
    exact Except.noConfusion h

/-- Claim C2, witness at the constant function, an empty cache and one
concrete argument. -/
theorem cache_at_most_once_witness :
    wrapper_cache constSeven (wrapper_cache constSeven [] [PyVal.int 1] []).cache
        [PyVal.int 1] [] =
      ⟨Except.ok 7, (wrapper_cache constSeven [] [PyVal.int 1] []).cache, 0⟩ ∧
    (wrapper_cache constSeven [] [PyVal.int 1] []).invocations +
      (wrapper_cache constSeven (wrapper_cache constSeven [] [PyVal.int 1] []).cache
        [PyVal.int 1] []).invocations ≤ 1 :=
  cache_at_most_once constSeven [] [PyVal.int 1] [] 7 (by decide)

/-- Claim C3, counterexample: two distinct calls, one passing the tuple
("z", 3) as a positional argument and one passing z = 3 as a keyword
argument, are mapped by the key construction to the same cache key, so
distinct argument tuples do not always produce distinct cache entries. -/
theorem cacheKey_distinct_cex :
    cacheKey [PyVal.pair (PyVal.str "z") (PyVal.int 3)] [] =
      cacheKey [] [("z", PyVal.int 3)] ∧
    ([PyVal.pair (PyVal.str "z") (PyVal.int 3)], ([] : List (String × PyVal))) ≠
      (([] : List PyVal), [("z", PyVal.int 3)]) := by
  constructor
  · rfl
  · decide

/-- Claim C3, amended: two calls that agree on their keyword arguments get
the same cache key iff their positional tuples agree, and two calls that
agree on their positional tuples get the same cache key iff their keyword
lists agree; only calls differing in both components can collide. -/
theorem cacheKey_distinct (a1 a2 a : List PyVal) (kw1 kw2 kw : List (String × PyVal)) :
    (cacheKey a1 kw = cacheKey a2 kw ↔ a1 = a2) ∧
    (cacheKey a kw1 = cacheKey a kw2 ↔ kw1 = kw2) :=
  ⟨cacheKey_args_inj a1 a2 kw, cacheKey_kwargs_inj a kw1 kw2⟩

/-- Claim C4: when the wrapped function raises on a hashable key that is not
cached, the wrapper propagates exactly that error, invokes the wrapped
function once, leaves the cache unchanged, and an identical later call
invokes the wrapped function again. -/
theorem failure_not_memoized {β : Type} (f : List PyVal → List (String × PyVal) → Except PyErr β)
    (cache : List (List PyVal × β)) (a : List PyVal) (kw : List (String × PyVal)) (e : PyErr)
    (hh : hashableKey (cacheKey a kw) = true)
    (hm : dictGet (cacheKey a kw) cache = none)
    (he : f a kw = Except.error e) :
    wrapper_cache f cache a kw = ⟨Except.error e, cache, 1⟩ ∧
    (wrapper_cache f (wrapper_cache f cache a kw).cache a kw).invocations = 1 := by
  have h1 : wrapper_cache f cache a kw = ⟨Except.error e, cache, 1⟩ := by
    unfold wrapper_cache
    simp [hh, hm, he]
  refine ⟨h1, ?_⟩
  rw [h1, h1]

/-- Claim C4, witness at a function that always raises. -/
theorem failure_not_memoized_witness :
    wrapper_cache alwaysRaises [] [PyVal.int 0] [] =
      ⟨Except.error (PyErr.raised "boom"), [], 1⟩ ∧
    (wrapper_cache alwaysRaises (wrapper_cache alwaysRaises [] [PyVal.int 0] []).cache
      [PyVal.int 0] []).invocations = 1 :=
  failure_not_memoized alwaysRaises [] [PyVal.int 0] [] (PyErr.raised "boom")
    (by decide) (by decide) (by decide)

/-- Claim C5: when some argument of a call cannot be hashed into the cache
key, the wrapper fails with the unhashable error, the cache is unchanged and
the wrapped function is invoked zero times. -/
theorem unhashable_fails_fast {β : Type} (f : List PyVal → List (String × PyVal) → Except PyErr β)
    (cache : List (List PyVal × β)) (a : List PyVal) (kw : List (String × PyVal))
    (hh : hashableKey (cacheKey a kw) = false) :
    wrapper_cache f cache a kw = ⟨Except.error PyErr.unhashable, cache, 0⟩ := by
  unfold wrapper_cache
  simp [hh]

/-- Claim C5, witness at a call passing a Python list positionally. -/
theorem unhashable_fails_fast_witness :
    wrapper_cache constSeven [] [PyVal.list [PyVal.int 1]] [] =
      ⟨Except.error PyErr.unhashable, [], 0⟩ :=
  unhashable_fails_fast constSeven [] [PyVal.list [PyVal.int 1]] [] (by decide)

set_option maxRecDepth 20000 in
/-- Claim C6: the memoized fibonacci at 10 returns 55 with exactly 11
invocations of the counted underlying computation and exactly 11 cache
entries, one per n below 11, while the unmemoized counted fibonacci at 10
returns 55 with 177 invocations. -/
theorem fibonacci_scenario :
    fibNaive 20 10 0 = some (55, 177) ∧
    (fibMemo 20 10 ([], 0)).map (fun p => (p.1, p.2.2, p.2.1.length)) =
      some (55, 11, 11) ∧
    (List.range 11).all
      (fun n => (dictGet (cacheKey [PyVal.int n] [])
        (((fibMemo 20 10 ([], 0)).map (fun p => p.2.1)).getD [])).isSome) = true := by
  refine ⟨by decide, by decide, by decide⟩

/-- Claim C7: the cache key construction is a function of the argument lists,
and two calls passing the same positional arguments and keyword lists that
are rearrangements of one another but not equal get different cache keys, so
they occupy distinct cache entries. -/
theorem keyword_order_sensitive (a : List PyVal) (kw1 kw2 : List (String × PyVal))
    (hperm : kw1.Perm kw2) (hne : kw1 ≠ kw2) :
    cacheKey a kw1 ≠ cacheKey a kw2 := by
  intro h
  exact hne ((cacheKey_kwargs_inj a kw1 kw2).mp h)

/-- Claim C7, witness at two keyword lists holding the same two bindings in
swapped order. -/
theorem keyword_order_sensitive_witness :
    cacheKey [] [("a", PyVal.int 1), ("b", PyVal.int 2)] ≠
      cacheKey [] [("b", PyVal.int 2), ("a", PyVal.int 1)] :=
  keyword_order_sensitive [] [("a", PyVal.int 1), ("b", PyVal.int 2)]
    [("b", PyVal.int 2), ("a", PyVal.int 1)]
    (List.Perm.swap ("b", PyVal.int 2) ("a", PyVal.int 1) []) (by decide)

/-- Claim C8 (bounded variant, modelled from the spec): with maxsize 2,
calling with distinct keys A, B, C in order evicts A when C is inserted; from
that state a call with A recomputes the underlying function, while a call
with B or C is a hit that returns the stored value without recomputation. -/
theorem lru_eviction_scenario (f : Int → Int) (A B C : Int)
    (hAB : A ≠ B) (hAC : A ≠ C) (hBC : B ≠ C) :
    lruABC f A B C = [(B, f B), (C, f C)] ∧
    dictGet A (lruABC f A B C) = none ∧
    (lru_invoke f 2 (lruABC f A B C) A).2.2 = 1 ∧
    lru_invoke f 2 (lruABC f A B C) B = (f B, [(C, f C), (B, f B)], 0) ∧
    lru_invoke f 2 (lruABC f A B C) C = (f C, [(B, f B), (C, f C)], 0) := by
  have hBA : B ≠ A := Ne.symm hAB
  have hCA : C ≠ A := Ne.symm hAC
  have hCB : C ≠ B := Ne.symm hBC
  have habc : lruABC f A B C = [(B, f B), (C, f C)] := by
    simp [lruABC, lru_invoke, dictGet, lruRemove, hAB, hAC, hBC, hBA, hCA, hCB]
  refine ⟨habc, ?_, ?_, ?_, ?_⟩
  · rw [habc]
    simp [dictGet, hBA, hCA]
  · rw [habc]
    simp [lru_invoke, dictGet, hBA, hCA]
  · rw [habc]
    simp [lru_invoke, dictGet, lruRemove, hCB, hBA, hCA]
  · rw [habc]
    simp [lru_invoke, dictGet, lruRemove, hBC, hCB]

/-- Claim C8, witness at the identity function and the keys 0, 1, 2. -/
theorem lru_eviction_scenario_witness :
    lruABC (fun k => k) 0 1 2 = [(1, 1), (2, 2)] ∧
    dictGet 0 (lruABC (fun k => k) 0 1 2) = none ∧
    (lru_invoke (fun k => k) 2 (lruABC (fun k => k) 0 1 2) 0).2.2 = 1 ∧
    lru_invoke (fun k => k) 2 (lruABC (fun k => k) 0 1 2) 1 = (1, [(2, 2), (1, 1)], 0) ∧
    lru_invoke (fun k => k) 2 (lruABC (fun k => k) 0 1 2) 2 = (2, [(1, 1), (2, 2)], 0) :=
  lru_eviction_scenario (fun k => k) 0 1 2 (by decide) (by decide) (by decide)

/-- Claim C9: the call passing the tuple ("x", 1) as its only positional
argument and the call passing x = 1 as its only keyword argument are
different calls with equal cache keys; after the first call is cached, the
second call is served from the first call's entry without invoking the
wrapped function, even though the wrapped function argLen would return a
different value for it. -/
theorem positional_keyword_collision :
    cacheKey [PyVal.pair (PyVal.str "x") (PyVal.int 1)] [] =
      cacheKey [] [("x", PyVal.int 1)] ∧
    ([PyVal.pair (PyVal.str "x") (PyVal.int 1)], ([] : List (String × PyVal))) ≠
      (([] : List PyVal), [("x", PyVal.int 1)]) ∧
    (wrapper_cache argLen
        (wrapper_cache argLen [] [PyVal.pair (PyVal.str "x") (PyVal.int 1)] []).cache
        [] [("x", PyVal.int 1)]).result = Except.ok 1 ∧
    (wrapper_cache argLen
        (wrapper_cache argLen [] [PyVal.pair (PyVal.str "x") (PyVal.int 1)] []).cache
        [] [("x", PyVal.int 1)]).invocations = 0 ∧
    argLen [] [("x", PyVal.int 1)] = Except.ok 0 := by
  refine ⟨rfl, by decide, by decide, by decide, rfl⟩

/-- Claim C10: if the instance a singleton-wrapped class constructs is
truthy, the first call constructs it once and every later call returns the
stored identical instance without reconstruction; if the constructed
instance is falsy, any call finding a falsy stored attribute, including every
call after such a construction, invokes the constructor again. -/
theorem singleton_truthiness (cls : List PyVal → List (String × PyVal) → PyVal)
    (a : List PyVal) (kw : List (String × PyVal)) :
    (pyTruthy (cls a kw) = true →
      wrapper_singleton cls PyVal.none_ a kw = (cls a kw, cls a kw, 1) ∧
      ∀ a2 kw2, wrapper_singleton cls (cls a kw) a2 kw2 = (cls a kw, cls a kw, 0)) ∧
    (∀ inst, pyTruthy inst = false →
      wrapper_singleton cls inst a kw = (cls a kw, cls a kw, 1)) := by
  constructor
  · intro ht
    constructor
    · simp [wrapper_singleton, pyTruthy]
    · intro a2 kw2
      simp [wrapper_singleton, ht]
  · intro inst hf
    simp [wrapper_singleton, hf]

/-- Claim C10, witness: a wrapped class constructing the truthy value 7 is
constructed once and then served from the stored attribute, while one
constructing the falsy value 0 is reconstructed on a call that finds the
previously constructed falsy instance stored. -/
theorem singleton_truthiness_witness :
    wrapper_singleton (fun _ _ => PyVal.int 7) PyVal.none_ [] [] =
      (PyVal.int 7, PyVal.int 7, 1) ∧
    wrapper_singleton (fun _ _ => PyVal.int 7) (PyVal.int 7) [] [] =
      (PyVal.int 7, PyVal.int 7, 0) ∧
    wrapper_singleton (fun _ _ => PyVal.int 0) (PyVal.int 0) [] [] =
      (PyVal.int 0, PyVal.int 0, 1) :=
  ⟨((singleton_truthiness (fun _ _ => PyVal.int 7) [] []).1 (by decide)).1,
   ((singleton_truthiness (fun _ _ => PyVal.int 7) [] []).1 (by decide)).2 [] [],
   (singleton_truthiness (fun _ _ => PyVal.int 0) [] []).2 (PyVal.int 0) (by decide)⟩
